import Mathlib

/-!
# Verification of `instagram-border-tool.py`

A shallow embedding of the program's logic: the color parser
(`parse_color`), the border compositor (`add_borders` and its pieces),
and the preview debounce gate (`process_preview`), together with
theorems settling the specification's claims about them.

Modelling conventions:
* Python machine floats are read as exact rationals (`ℚ`); `int(x)` on the
  nonnegative values arising here is `Nat.floor`.  Sub-ulp IEEE rounding and
  float overflow (reachable only for decimal literals near `2 ^ 1024`) are
  idealized away, matching the spec's own exact `floor` formulas.
* Character classes (`\d`, `\s`, hex digits) are modelled over ASCII; the
  exotic non-ASCII code points Python's `re`/`int` additionally accept do not
  occur in any input considered here.
* Exceptions become `Option`/explicit error branches; the `try/except` blocks
  of the source become the corresponding fallback results.
* External collaborators (the resampling filter of `PIL.Image.resize`, the
  temp directory) are parameters, as §1 of the spec treats them.
-/

namespace InstagramBorder

/-- RGB color triple as produced by `parse_color` (Python integers). -/
abbrev Color := Int × Int × Int

/-- ASCII decimal digit: the regex class `\d` of the color pattern. -/
def isPyDigit (c : Char) : Bool := 48 ≤ c.toNat && c.toNat ≤ 57

/-- ASCII whitespace: the regex class `\s`, and the surrounding whitespace
`int()` strips. -/
def isPySpace (c : Char) : Bool :=
  c = ' ' || c = '\t' || c = '\n' || c = '\r' || c = '\x0B' || c = '\x0C'

/-- Hexadecimal digit, as accepted by Python `int(_, 16)`. -/
def isHexDig (c : Char) : Bool :=
  (48 ≤ c.toNat && c.toNat ≤ 57) ||
  (97 ≤ c.toNat && c.toNat ≤ 102) ||
  (65 ≤ c.toNat && c.toNat ≤ 70)

/-- Value of one hexadecimal digit (only meaningful when `isHexDig`). -/
def hexDigVal (c : Char) : Nat :=
  if c.toNat ≤ 57 then c.toNat - 48
  else if 97 ≤ c.toNat then c.toNat - 87
  else c.toNat - 55

/-- Value of a decimal digit string. -/
def digitsVal (ds : List Char) : Nat :=
  ds.foldl (fun a c => 10 * a + (c.toNat - 48)) 0

/-- Value of a hexadecimal digit string. -/
def hexVal (ds : List Char) : Nat :=
  ds.foldl (fun a c => 16 * a + hexDigVal c) 0

/-- Python `int(s, 16)`, for the length-`≤ 2` slices `parse_color` feeds it:
strip surrounding whitespace, take an optional sign, then require a nonempty
run of hex digits.  (The `0x` prefix and `_` separators Python additionally
allows cannot legally occur in at most two characters: `0x` alone has no
digits, and an underscore needs a digit on both sides.) -/
def pyIntHex? (s : List Char) : Option Int :=
  let t := ((s.dropWhile isPySpace).reverse.dropWhile isPySpace).reverse
  let sign : Int := if t.head? = some '-' then -1 else 1
  let ds := if t.head? = some '+' ∨ t.head? = some '-' then t.tail else t
  if ds ≠ [] ∧ ds.all isHexDig then some (sign * (hexVal ds : Int)) else none

/-- One capture group `\d+\.?\d*` of the color regex, by maximal munch
(equivalent to the backtracking engine here: every shorter candidate is a
proper prefix of the maximal one, so the character after it is a digit or the
dot, never the `,` the pattern requires next).  Returns the truncated value
`int(float(group))` — i.e. the value of the leading digit run, the fractional
part being in `[0, 1)` — and the unconsumed input. -/
def matchNum? (s : List Char) : Option (Nat × List Char) :=
  let p := s.span isPyDigit
  if p.1 = [] then none
  else
    match p.2 with
    | '.' :: t => some (digitsVal p.1, t.dropWhile isPyDigit)
    | _ => some (digitsVal p.1, p.2)

/-- The literal `,` followed by `\s*` between two capture groups. -/
def matchSep? (s : List Char) : Option (List Char) :=
  match s with
  | ',' :: t => some (t.dropWhile isPySpace)
  | _ => none

/-- The leading `rgba?\(` of the pattern: after the literal `rgb`, the
optional `a` is consumed when present (if consuming it does not let `\(`
match, backtracking cannot help, because then the next character is `a`,
not `(`). -/
def matchHead? (s : List Char) : Option (List Char) :=
  match s with
  | 'r' :: 'g' :: 'b' :: 'a' :: '(' :: t => some t
  | 'r' :: 'g' :: 'b' :: '(' :: t => some t
  | _ => none

/-- `re.match(r'rgba?\((\d+\.?\d*),\s*(\d+\.?\d*),\s*(\d+\.?\d*)', s)`
(anchored at the start, trailing input ignored), returning the three
truncated numeric components `int(float(group))`. -/
def matchRgb? (s : List Char) : Option (Nat × Nat × Nat) := do
  let t ← matchHead? s
  let p1 ← matchNum? t
  let r2 ← matchSep? p1.2
  let p2 ← matchNum? r2
  let r4 ← matchSep? p2.2
  let p3 ← matchNum? r4
  return (p1.1, p2.1, p3.1)

/-- `parse_color` (source lines 11–23).  The `rgba?` functional pattern is
tried first; otherwise a string starting with `#` has its slices `[1:3]`,
`[3:5]`, `[5:7]` read as hexadecimal integers; any failure — including the
exception `int` raises on a bad slice, caught by the `except` — yields
white `(255, 255, 255)`. -/
def parse_color (color_str : String) : Color :=
  match matchRgb? color_str.toList with
  | some (r, g, b) => ((r : Int), (g : Int), (b : Int))
  | none =>
    if color_str.toList.head? = some '#' then
      match pyIntHex? ((color_str.toList.drop 1).take 2),
            pyIntHex? ((color_str.toList.drop 3).take 2),
            pyIntHex? ((color_str.toList.drop 5).take 2) with
      | some r, some g, some b => (r, g, b)
      | _, _, _ => (255, 255, 255)
    else (255, 255, 255)

/-! ## The border compositor -/

/-- An in-memory RGB image: dimensions plus a pixel map (meaningful on
`x < width`, `y < height`). -/
structure Img where
  width : Nat
  height : Nat
  pix : Nat → Nat → Color

/-- The `INSTAGRAM_RATIOS` dictionary (source lines 51–55); `none` models the
`KeyError` an unrecognized label raises. -/
def INSTAGRAM_RATIOS (label : String) : Option (Nat × Nat) :=
  if label = "1:1 (Square)" then some (1, 1)
  else if label = "4:5 (Portrait)" then some (4, 5)
  else if label = "16:9 (Landscape)" then some (16, 9)
  else none

/-- Canvas dimensions (source lines 59–71), with the float arithmetic read
exactly over `ℚ`: `target_ratio_value = w / h`, `orig_ratio = ow / oh`, and
Python `int()` on the nonnegative quotients is `Nat.floor`.  Only called with
`oh ≠ 0` (a zero height raises `ZeroDivisionError` at line 63, handled in
`add_borders`). -/
def newDims (ow oh w h : Nat) : Nat × Nat :=
  if (w : ℚ) / (h : ℚ) < (ow : ℚ) / (oh : ℚ) then
    (ow, ⌊(ow : ℚ) / ((w : ℚ) / (h : ℚ))⌋₊)
  else
    (⌊(oh : ℚ) * ((w : ℚ) / (h : ℚ))⌋₊, oh)

/-- `paste_x = (new_width - orig_width) // 2` (source line 77): Python `//`
on integers is floor division, `Int.fdiv`. -/
def paste_x (ow oh w h : Nat) : Int :=
  (((newDims ow oh w h).1 : Int) - (ow : Int)).fdiv 2

/-- `paste_y = (new_height - orig_height) // 2` (source line 78). -/
def paste_y (ow oh w h : Nat) : Int :=
  (((newDims ow oh w h).2 : Int) - (oh : Int)).fdiv 2

/-- The composited canvas (source lines 74–81): an `Image.new` canvas filled
with the border color, with the original pasted verbatim at
`(paste_x, paste_y)`; pixels outside the pasted rectangle keep the fill. -/
def composite (image : Img) (c : Color) (w h : Nat) : Img :=
  { width := (newDims image.width image.height w h).1
    height := (newDims image.width image.height w h).2
    pix := fun x y =>
      if paste_x image.width image.height w h ≤ (x : Int) ∧
         (x : Int) < paste_x image.width image.height w h + (image.width : Int) ∧
         paste_y image.width image.height w h ≤ (y : Int) ∧
         (y : Int) < paste_y image.width image.height w h + (image.height : Int) then
        image.pix ((x : Int) - paste_x image.width image.height w h).toNat
                  ((y : Int) - paste_y image.width image.height w h).toNat
      else c }

/-- `resize_for_preview` (source lines 25–36).  The Lanczos resampling kernel
is an external collaborator (spec §1), passed in as `resample`, applied only
when a dimension exceeds 800; the scaled dimensions are
`int(width * ratio), int(height * ratio)` with `ratio = min(800/w, 800/h)`. -/
def resize_for_preview (resample : Img → Nat × Nat → Img) (image : Img) : Img :=
  if 800 < image.width ∨ 800 < image.height then
    resample image
      (⌊(image.width : ℚ) * min ((800 : ℚ) / (image.width : ℚ)) ((800 : ℚ) / (image.height : ℚ))⌋₊,
       ⌊(image.height : ℚ) * min ((800 : ℚ) / (image.width : ℚ)) ((800 : ℚ) / (image.height : ℚ))⌋₊)
  else image

/-- `add_borders` (source lines 38–95).  The `try/except` surfaces every
internal exception as `(None, None)`: a `None` image (line 40), the
`KeyError` of an unrecognized label (line 58), and the `ZeroDivisionError`
of a zero height (line 63).  `parse_color` itself never raises, and the
numpy-to-PIL conversion is the identity on the abstract image, so those
steps cannot fail; the external JPEG save and resampler are modelled as
the total collaborators the spec's §1 declares them to be.  (The source
parses the color before the ratio lookup; since parsing is total, doing
the lookup first is observationally identical.) -/
def add_borders (resample : Img → Nat × Nat → Img) (temp_dir : String)
    (image : Option Img) (border_color : String) (label : String)
    (is_preview : Bool) : Option Img × Option String :=
  match image with
  | none => (none, none)
  | some img =>
    match INSTAGRAM_RATIOS label with
    | none => (none, none)
    | some (w, h) =>
      if img.height = 0 then (none, none)
      else
        if is_preview then
          (some (resize_for_preview resample (composite img (parse_color border_color) w h)),
           none)
        else
          (some (composite img (parse_color border_color) w h),
           some (temp_dir ++ "/processed_image.jpg"))

/-! ## The debounce gate -/

/-- `update_interval = 0.1` (source line 98). -/
def update_interval : ℚ := 1 / 10

/-- `process_preview` (source lines 100–118), with the global
`last_update_time` and `time.time()` made explicit: the result is the pair
(returned preview, stored timestamp after the call).  Note the stored time
is assigned (line 109) before the missing-image check (line 111). -/
def process_preview (resample : Img → Nat × Nat → Img) (temp_dir : String)
    (last_update_time current_time : ℚ) (input_image : Option Img)
    (border_color : String) (label : String) : Option Img × ℚ :=
  if current_time - last_update_time < update_interval then
    (none, last_update_time)
  else
    match input_image with
    | none => (none, current_time)
    | some img =>
      ((add_borders resample temp_dir (some img) border_color label true).1,
       current_time)

/-! ## Helper lemmas -/

/-- Every recognized label maps to a ratio with positive components. -/
lemma ratios_pos {label : String} {w h : Nat}
    (hl : INSTAGRAM_RATIOS label = some (w, h)) : 0 < w ∧ 0 < h := by
  unfold INSTAGRAM_RATIOS at hl
  split_ifs at hl <;> (injection hl with hp <;> (rw [Prod.mk.injEq] at hp; omega))

/-- The rational computation of `newDims` in integer terms: the ratio
comparison cross-multiplies, and the two floors are Nat divisions. -/
lemma newDims_eq (ow oh w h : Nat) (hoh : 0 < oh) (hw : 0 < w) (hh : 0 < h) :
    newDims ow oh w h =
      if oh * w < ow * h then (ow, ow * h / w) else (oh * w / h, oh) := by
  have hcond : ((w : ℚ) / (h : ℚ) < (ow : ℚ) / (oh : ℚ)) ↔ oh * w < ow * h := by
    rw [div_lt_div_iff₀ (by exact_mod_cast hh) (by exact_mod_cast hoh)]
    rw [show ((w : ℚ) * (oh : ℚ)) = (((oh * w : ℕ) : ℚ)) by push_cast; ring,
        show ((ow : ℚ) * (h : ℚ)) = (((ow * h : ℕ) : ℚ)) by push_cast; ring]
    exact Nat.cast_lt
  have hf1 : ⌊(ow : ℚ) / ((w : ℚ) / (h : ℚ))⌋₊ = ow * h / w := by
    rw [div_div_eq_mul_div,
        show ((ow : ℚ) * (h : ℚ) / (w : ℚ)) = (((ow * h : ℕ) : ℚ) / ((w : ℕ) : ℚ)) by
          push_cast; ring,
        Nat.floor_div_nat, Nat.floor_natCast]
  have hf2 : ⌊(oh : ℚ) * ((w : ℚ) / (h : ℚ))⌋₊ = oh * w / h := by
    rw [show ((oh : ℚ) * ((w : ℚ) / (h : ℚ))) = (((oh * w : ℕ) : ℚ) / ((h : ℕ) : ℚ)) by
          push_cast; ring,
        Nat.floor_div_nat, Nat.floor_natCast]
  unfold newDims
  by_cases hc : oh * w < ow * h
  · rw [if_pos (hcond.mpr hc), if_pos hc, hf1]
  · rw [if_neg (fun hx => hc (hcond.mp hx)), if_neg hc, hf2]

/-- The canvas is at least as large as the original in both dimensions. -/
lemma newDims_ge (ow oh w h : Nat) (hoh : 0 < oh) (hw : 0 < w) (hh : 0 < h) :
    ow ≤ (newDims ow oh w h).1 ∧ oh ≤ (newDims ow oh w h).2 := by
  rw [newDims_eq ow oh w h hoh hw hh]
  by_cases hc : oh * w < ow * h
  · rw [if_pos hc]
    refine ⟨le_refl ow, ?_⟩
    rw [Nat.le_div_iff_mul_le hw]
    exact Nat.le_of_lt hc
  · rw [if_neg hc]
    refine ⟨?_, le_refl oh⟩
    rw [Nat.le_div_iff_mul_le hh]
    exact Nat.le_of_not_lt hc

/-- With the canvas at least as wide as the original, the floor division
`paste_x` is the corresponding Nat division. -/
lemma paste_x_eq (ow oh w h : Nat) (hle : ow ≤ (newDims ow oh w h).1) :
    paste_x ow oh w h = ((((newDims ow oh w h).1 - ow) / 2 : ℕ) : Int) := by
  unfold paste_x
  rw [← Nat.cast_sub hle, Int.ofNat_fdiv]
  norm_cast

/-- Nat-division form of `paste_y`. -/
lemma paste_y_eq (ow oh w h : Nat) (hle : oh ≤ (newDims ow oh w h).2) :
    paste_y ow oh w h = ((((newDims ow oh w h).2 - oh) / 2 : ℕ) : Int) := by
  unfold paste_y
  rw [← Nat.cast_sub hle, Int.ofNat_fdiv]
  norm_cast

/-- Pixels of the pasted rectangle reproduce the original verbatim. -/
lemma composite_pix_inside (img : Img) (c : Color) (w h : Nat)
    (hoh : 0 < img.height) (hw : 0 < w) (hh : 0 < h)
    (dx dy : Nat) (hdx : dx < img.width) (hdy : dy < img.height) :
    (composite img c w h).pix
      (((newDims img.width img.height w h).1 - img.width) / 2 + dx)
      (((newDims img.width img.height w h).2 - img.height) / 2 + dy) =
      img.pix dx dy := by
  obtain ⟨h1, h2⟩ := newDims_ge img.width img.height w h hoh hw hh
  have hx := paste_x_eq img.width img.height w h h1
  have hy := paste_y_eq img.width img.height w h h2
  set n1 := (newDims img.width img.height w h).1 with hn1
  set n2 := (newDims img.width img.height w h).2 with hn2
  simp only [composite]
  rw [hx, hy, if_pos]
  · have hA : ((((n1 - img.width) / 2 + dx : ℕ) : Int) -
        (((n1 - img.width) / 2 : ℕ) : Int)).toNat = dx := by omega
    have hB : ((((n2 - img.height) / 2 + dy : ℕ) : Int) -
        (((n2 - img.height) / 2 : ℕ) : Int)).toNat = dy := by omega
    rw [hA, hB]
  · refine ⟨?_, ?_, ?_, ?_⟩ <;> omega

/-- Pixels outside the pasted rectangle keep the border fill color. -/
lemma composite_pix_outside (img : Img) (c : Color) (w h : Nat)
    (hoh : 0 < img.height) (hw : 0 < w) (hh : 0 < h) (x y : Nat)
    (hout : x < ((newDims img.width img.height w h).1 - img.width) / 2 ∨
            ((newDims img.width img.height w h).1 - img.width) / 2 + img.width ≤ x ∨
            y < ((newDims img.width img.height w h).2 - img.height) / 2 ∨
            ((newDims img.width img.height w h).2 - img.height) / 2 + img.height ≤ y) :
    (composite img c w h).pix x y = c := by
  obtain ⟨h1, h2⟩ := newDims_ge img.width img.height w h hoh hw hh
  have hx := paste_x_eq img.width img.height w h h1
  have hy := paste_y_eq img.width img.height w h h2
  simp only [composite]
  rw [hx, hy, if_neg]
  rintro ⟨c1, c2, c3, c4⟩
  rcases hout with hc | hc | hc | hc <;> omega

/-! ## The claims -/

/-- **C1.** For every source image with positive width and height and every
recognized aspect-ratio label, `add_borders` computes the canvas dimensions
exactly by the spec's formulas: if `ow / oh > w / h` (cross-multiplied:
`oh * w < ow * h`) then `new_width = ow` and
`new_height = floor(ow / (w / h)) = ow * h / w`, otherwise `new_height = oh`
and `new_width = floor(oh * (w / h)) = oh * w / h`; consequently the canvas
ratio matches the target up to integer rounding:
`|new_width * h - new_height * w| < max w h`. -/
theorem add_borders_dims_formula (ow oh w h : Nat) (label : String)
    (hl : INSTAGRAM_RATIOS label = some (w, h)) (how : 0 < ow) (hoh : 0 < oh) :
    newDims ow oh w h =
      (if oh * w < ow * h then (ow, ow * h / w) else (oh * w / h, oh)) ∧
    |((newDims ow oh w h).1 : Int) * (h : Int) -
      ((newDims ow oh w h).2 : Int) * (w : Int)| < ((max w h : ℕ) : Int) := by
  obtain ⟨hw, hh⟩ := ratios_pos hl
  have he := newDims_eq ow oh w h hoh hw hh
  refine ⟨he, ?_⟩
  rw [he]
  by_cases hc : oh * w < ow * h
  · rw [if_pos hc]
    dsimp only
    have hdm := Nat.div_add_mod (ow * h) w
    have hml : (ow * h) % w < w := Nat.mod_lt _ hw
    have hmx : w ≤ max w h := le_max_left w h
    have hr0 : (0 : Int) ≤ ((ow * h) % w : ℕ) := Int.natCast_nonneg _
    rw [abs_lt]
    constructor <;>
      (push_cast; push_cast at hdm hml hmx hr0; linarith)
  · rw [if_neg hc]
    dsimp only
    have hdm := Nat.div_add_mod (oh * w) h
    have hml : (oh * w) % h < h := Nat.mod_lt _ hh
    have hmx : h ≤ max w h := le_max_right w h
    have hr0 : (0 : Int) ≤ ((oh * w) % h : ℕ) := Int.natCast_nonneg _
    rw [abs_lt]
    constructor <;>
      (push_cast; push_cast at hdm hml hmx hr0; linarith)

/-- **C8.** A source whose ratio already equals the target ratio exactly
(`ow * h = oh * w`) keeps its dimensions, and both paste offsets are zero. -/
theorem add_borders_idempotent_dims (ow oh w h : Nat) (label : String)
    (hl : INSTAGRAM_RATIOS label = some (w, h)) (how : 0 < ow) (hoh : 0 < oh)
    (hr : ow * h = oh * w) :
    newDims ow oh w h = (ow, oh) ∧
    paste_x ow oh w h = 0 ∧ paste_y ow oh w h = 0 := by
  obtain ⟨hw, hh⟩ := ratios_pos hl
  have he := newDims_eq ow oh w h hoh hw hh
  have hd : newDims ow oh w h = (ow, oh) := by
    rw [he, if_neg (by omega)]
    have hq : oh * w / h = ow := by
      rw [← hr, Nat.mul_div_cancel ow hh]
    rw [hq]
  refine ⟨hd, ?_, ?_⟩
  · unfold paste_x
    rw [hd]
    simp
  · unfold paste_y
    rw [hd]
    simp

/-- **C10.** For positive source dimensions and a recognized label the canvas
is at least as large as the source in both dimensions, both paste offsets
are nonnegative, and the pasted rectangle lies entirely inside the canvas. -/
theorem paste_region_inside_canvas (ow oh w h : Nat) (label : String)
    (hl : INSTAGRAM_RATIOS label = some (w, h)) (how : 0 < ow) (hoh : 0 < oh) :
    ow ≤ (newDims ow oh w h).1 ∧ oh ≤ (newDims ow oh w h).2 ∧
    0 ≤ paste_x ow oh w h ∧ 0 ≤ paste_y ow oh w h ∧
    paste_x ow oh w h + (ow : Int) ≤ ((newDims ow oh w h).1 : Int) ∧
    paste_y ow oh w h + (oh : Int) ≤ ((newDims ow oh w h).2 : Int) := by
  obtain ⟨hw, hh⟩ := ratios_pos hl
  obtain ⟨h1, h2⟩ := newDims_ge ow oh w h hoh hw hh
  have hx := paste_x_eq ow oh w h h1
  have hy := paste_y_eq ow oh w h h2
  refine ⟨h1, h2, ?_, ?_, ?_, ?_⟩
  · rw [hx]; omega
  · rw [hy]; omega
  · rw [hx]; omega
  · rw [hy]; omega

/-- **C2.** For every source image (positive dimensions) and recognized
ratio label, the full-quality call of `add_borders` returns exactly the
composited canvas together with the temp path; the paste offsets are the
floor divisions `(new_width - orig_width) // 2` (equal, as Nat divisions,
to the expressions below); every canvas pixel of the pasted rectangle is
the source pixel, verbatim, and every canvas pixel outside it is the
parsed border color. -/
theorem add_borders_paste_centered (img : Img) (cstr label temp_dir : String)
    (w h : Nat) (resample : Img → Nat × Nat → Img)
    (hl : INSTAGRAM_RATIOS label = some (w, h))
    (how : 0 < img.width) (hoh : 0 < img.height) :
    add_borders resample temp_dir (some img) cstr label false =
      (some (composite img (parse_color cstr) w h),
       some (temp_dir ++ "/processed_image.jpg")) ∧
    paste_x img.width img.height w h =
      ((((newDims img.width img.height w h).1 - img.width) / 2 : ℕ) : Int) ∧
    paste_y img.width img.height w h =
      ((((newDims img.width img.height w h).2 - img.height) / 2 : ℕ) : Int) ∧
    (∀ dx dy, dx < img.width → dy < img.height →
      (composite img (parse_color cstr) w h).pix
        (((newDims img.width img.height w h).1 - img.width) / 2 + dx)
        (((newDims img.width img.height w h).2 - img.height) / 2 + dy) =
        img.pix dx dy) ∧
    (∀ x y,
      (x < ((newDims img.width img.height w h).1 - img.width) / 2 ∨
       ((newDims img.width img.height w h).1 - img.width) / 2 + img.width ≤ x ∨
       y < ((newDims img.width img.height w h).2 - img.height) / 2 ∨
       ((newDims img.width img.height w h).2 - img.height) / 2 + img.height ≤ y) →
      (composite img (parse_color cstr) w h).pix x y = parse_color cstr) := by
  obtain ⟨hw, hh⟩ := ratios_pos hl
  obtain ⟨h1, h2⟩ := newDims_ge img.width img.height w h hoh hw hh
  refine ⟨?_, paste_x_eq _ _ _ _ h1, paste_y_eq _ _ _ _ h2, ?_, ?_⟩
  · simp only [add_borders, hl]
    rw [if_neg (by omega)]
    simp
  · intro dx dy hdx hdy
    exact composite_pix_inside img (parse_color cstr) w h hoh hw hh dx dy hdx hdy
  · intro x y hxy
    exact composite_pix_outside img (parse_color cstr) w h hoh hw hh x y hxy

/-- **C4.** `add_borders` never propagates an exception: whenever the input
image is missing, the ratio label is unrecognized (the `KeyError`), or the
image height is zero (the `ZeroDivisionError` of `orig_width / orig_height`)
— the failure points of the embedded computation — the `except` handler
yields `(None, None)`.  (Totality of the embedding models the absence of
uncaught exceptions; `parse_color` is a total function.) -/
theorem add_borders_catches_failures (resample : Img → Nat × Nat → Img)
    (temp_dir : String) (image : Option Img) (cstr label : String)
    (is_preview : Bool)
    (hfail : image = none ∨ INSTAGRAM_RATIOS label = none ∨
             ∃ img, image = some img ∧ img.height = 0) :
    add_borders resample temp_dir image cstr label is_preview = (none, none) := by
  rcases hfail with hc | hc | ⟨img, hi, hz⟩
  · rw [hc]
    rfl
  · cases image with
    | none => rfl
    | some img => simp only [add_borders, hc]
  · rw [hi]
    simp only [add_borders]
    cases hr : INSTAGRAM_RATIOS label with
    | none => rfl
    | some p =>
      cases p with
      | mk w h => simp [hz]

/-- **C3.** The debounce gate: a preview request arriving less than 100 ms
(`update_interval = 1/10` s) after the last accepted one returns `None` and
leaves the stored timestamp unchanged; one arriving at least 100 ms after
stores the current time and proceeds to the compositor (whose preview output
it returns for a present image). -/
theorem process_preview_debounce (resample : Img → Nat × Nat → Img)
    (temp_dir : String) (last now : ℚ) (image : Option Img)
    (cstr label : String) :
    (now - last < update_interval →
      process_preview resample temp_dir last now image cstr label =
        (none, last)) ∧
    (update_interval ≤ now - last →
      (process_preview resample temp_dir last now image cstr label).2 = now ∧
      ∀ img, image = some img →
        (process_preview resample temp_dir last now image cstr label).1 =
          (add_borders resample temp_dir (some img) cstr label true).1) := by
  constructor
  · intro hlt
    unfold process_preview
    rw [if_pos hlt]
  · intro hge
    unfold process_preview
    rw [if_neg (not_lt.mpr hge)]
    constructor
    · cases image <;> rfl
    · intro img hi
      rw [hi]

/-- **C5 (amended).** A preview call whose image input is missing and that
passes the debounce gate returns `None`, but it does have a side effect: the
stored debounce timestamp is updated to the current time, because the
assignment `last_update_time = current_time` precedes the missing-image
check in the source. -/
theorem process_preview_missing_image_updates_time
    (resample : Img → Nat × Nat → Img) (temp_dir : String) (last now : ℚ)
    (cstr label : String) (hge : update_interval ≤ now - last) :
    process_preview resample temp_dir last now none cstr label = (none, now) := by
  unfold process_preview
  rw [if_neg (not_lt.mpr hge)]

/-- **C5 (counterexample).** A missing-image preview call that passes the
debounce gate (stored time 0, now 1 s) returns `None` with the stored
timestamp changed from 0 to 1 — not unchanged as the claim states. -/
theorem process_preview_missing_image_cex :
    process_preview (fun i _ => i) "/tmp" 0 1 none "c" "1:1 (Square)" =
      (none, 1) ∧ (1 : ℚ) ≠ 0 := by
  constructor
  · unfold process_preview update_interval
    rw [if_neg (by norm_num)]
  · norm_num

/-! ## Bounds on the hex parser -/

/-- A hex digit's value is at most 15. -/
lemma hexDigVal_le (c : Char) (hc : isHexDig c = true) : hexDigVal c ≤ 15 := by
  simp only [isHexDig, Bool.or_eq_true, Bool.and_eq_true, decide_eq_true_eq] at hc
  unfold hexDigVal
  split_ifs <;> omega

/-- A hex-digit string of at most two characters has value at most 255. -/
lemma hexVal_le (ds : List Char) (hlen : ds.length ≤ 2)
    (hall : ds.all isHexDig = true) : hexVal ds ≤ 255 := by
  match ds with
  | [] => simp [hexVal]
  | [c] =>
    simp only [List.all_cons, List.all_nil, Bool.and_true] at hall
    have := hexDigVal_le c hall
    simp only [hexVal, List.foldl_cons, List.foldl_nil]
    omega
  | [c1, c2] =>
    simp only [List.all_cons, List.all_nil, Bool.and_true, Bool.and_eq_true] at hall
    have b1 := hexDigVal_le c1 hall.1
    have b2 := hexDigVal_le c2 hall.2
    simp only [hexVal, List.foldl_cons, List.foldl_nil]
    omega
  | _ :: _ :: _ :: _ => simp at hlen

/-- On inputs of at most two characters — the only inputs `parse_color`
supplies — a successful `int(_, 16)` yields a value in `[-255, 255]`. -/
lemma pyIntHex?_bound (s : List Char) (hlen : s.length ≤ 2) (v : Int)
    (hv : pyIntHex? s = some v) : -255 ≤ v ∧ v ≤ 255 := by
  unfold pyIntHex? at hv
  set t := ((s.dropWhile isPySpace).reverse.dropWhile isPySpace).reverse with ht
  have htlen : t.length ≤ 2 := by
    rw [ht]
    calc ((s.dropWhile isPySpace).reverse.dropWhile isPySpace).reverse.length
        = ((s.dropWhile isPySpace).reverse.dropWhile isPySpace).length :=
          List.length_reverse _
      _ ≤ (s.dropWhile isPySpace).reverse.length :=
          (List.dropWhile_sublist _).length_le
      _ = (s.dropWhile isPySpace).length := List.length_reverse _
      _ ≤ s.length := (List.dropWhile_sublist _).length_le
      _ ≤ 2 := hlen
  set ds := if t.head? = some '+' ∨ t.head? = some '-' then t.tail else t with hds
  have hdslen : ds.length ≤ 2 := by
    rw [hds]
    split_ifs
    · rw [List.length_tail]
      omega
    · exact htlen
  by_cases hcond : ds ≠ [] ∧ ds.all isHexDig
  · rw [if_pos hcond] at hv
    have hb : hexVal ds ≤ 255 := hexVal_le ds hdslen hcond.2
    have : v = (if t.head? = some '-' then (-1 : Int) else 1) * (hexVal ds : Int) :=
      (Option.some.injEq _ _ ▸ hv).symm
    rw [this]
    split_ifs <;> constructor <;> push_cast <;> omega
  · rw [if_neg hcond] at hv
    cases hv

/-- Length of the slice `s[i : i+2]` is at most 2. -/
lemma slice_len_le (cs : List Char) (i : Nat) : ((cs.drop i).take 2).length ≤ 2 := by
  rw [List.length_take]
  exact min_le_left _ _

/-! ## The parse_color claims -/

/-- **C9.** The specified test vectors hold, and `parse_color` is a total
function returning a triple on every input string (modelling that parsing
never raises to the caller). -/
theorem parse_color_test_vectors :
    parse_color "#FF0000" = (255, 0, 0) ∧
    parse_color "rgba(10,20,30,0.5)" = (10, 20, 30) ∧
    parse_color "garbage" = (255, 255, 255) ∧
    ∀ s : String, ∃ r g b : Int, parse_color s = (r, g, b) := by
  refine ⟨by decide, by decide, by decide, fun s => ?_⟩
  exact ⟨(parse_color s).1, (parse_color s).2.1, (parse_color s).2.2, rfl⟩

/-- **C7 (counterexample).** `parse_color "rgb(999,0,0)"` returns
`(999, 0, 0)`: the first component exceeds 255, refuting the claim that every
component lies in the range 0–255. -/
theorem parse_color_range_cex :
    parse_color "rgb(999,0,0)" = (999, 0, 0) ∧
    ¬((parse_color "rgb(999,0,0)").1 ≤ 255) := by decide

/-- **C7 (amended).** Every component `parse_color` returns is an integer at
least `-255`; on the non-functional paths (hex or fallback) each component is
also at most 255; and for strings matching the `rgb`/`rgba` pattern the
result is exactly the three truncated numeric components — nonnegative, but
unclamped, so they may exceed 255. -/
theorem parse_color_component_bounds (s : String) :
    (-255 ≤ (parse_color s).1 ∧ -255 ≤ (parse_color s).2.1 ∧
      -255 ≤ (parse_color s).2.2) ∧
    (matchRgb? s.toList = none →
      (parse_color s).1 ≤ 255 ∧ (parse_color s).2.1 ≤ 255 ∧
      (parse_color s).2.2 ≤ 255) ∧
    (∀ r g b : Nat, matchRgb? s.toList = some (r, g, b) →
      parse_color s = ((r : Int), (g : Int), (b : Int)) ∧
      0 ≤ (parse_color s).1 ∧ 0 ≤ (parse_color s).2.1 ∧
      0 ≤ (parse_color s).2.2) := by
  cases hm : matchRgb? s.toList with
  | some p =>
    obtain ⟨r, g, b⟩ := p
    have hp : parse_color s = ((r : Int), (g : Int), (b : Int)) := by
      unfold parse_color
      rw [hm]
    refine ⟨⟨?_, ?_, ?_⟩, fun hc => Option.noConfusion hc, ?_⟩
    · rw [hp]
      exact le_trans (by norm_num) (Int.natCast_nonneg r)
    · rw [hp]
      exact le_trans (by norm_num) (Int.natCast_nonneg g)
    · rw [hp]
      exact le_trans (by norm_num) (Int.natCast_nonneg b)
    · intro r' g' b' hs
      injection hs with hs
      rw [Prod.mk.injEq, Prod.mk.injEq] at hs
      obtain ⟨rfl, rfl, rfl⟩ := hs
      rw [hp]
      exact ⟨rfl, Int.natCast_nonneg r, Int.natCast_nonneg g, Int.natCast_nonneg b⟩
  | none =>
    have key : (-255 ≤ (parse_color s).1 ∧ (parse_color s).1 ≤ 255) ∧
        (-255 ≤ (parse_color s).2.1 ∧ (parse_color s).2.1 ≤ 255) ∧
        (-255 ≤ (parse_color s).2.2 ∧ (parse_color s).2.2 ≤ 255) := by
      unfold parse_color
      rw [hm]
      by_cases hhash : s.toList.head? = some '#'
      · rw [if_pos hhash]
        cases e1 : pyIntHex? ((s.toList.drop 1).take 2) with
        | none => cases e2 : pyIntHex? ((s.toList.drop 3).take 2) <;>
                    cases e3 : pyIntHex? ((s.toList.drop 5).take 2) <;> norm_num
        | some v1 =>
          cases e2 : pyIntHex? ((s.toList.drop 3).take 2) with
          | none => cases e3 : pyIntHex? ((s.toList.drop 5).take 2) <;> norm_num
          | some v2 =>
            cases e3 : pyIntHex? ((s.toList.drop 5).take 2) with
            | none => norm_num
            | some v3 =>
              have b1 := pyIntHex?_bound _ (slice_len_le s.toList 1) v1 e1
              have b2 := pyIntHex?_bound _ (slice_len_le s.toList 3) v2 e2
              have b3 := pyIntHex?_bound _ (slice_len_le s.toList 5) v3 e3
              exact ⟨⟨b1.1, b1.2⟩, ⟨b2.1, b2.2⟩, ⟨b3.1, b3.2⟩⟩
      · rw [if_neg hhash]
        norm_num
    refine ⟨⟨key.1.1, key.2.1.1, key.2.2.1⟩,
            fun _ => ⟨key.1.2, key.2.1.2, key.2.2.2⟩, ?_⟩
    intro r g b hs
    exact Option.noConfusion hs

/-- **C6 (counterexample).** `"#FFFFF"` is 6 characters — shorter than 7 —
starts with `#` and does not match the functional pattern, yet `parse_color`
returns `(255, 255, 15)` (the final slice `s[5:7]` is the single digit `F`),
not the white fallback; and `"#-1+2 3"` has non-hex characters at every
byte-pair position yet parses to `(-1, 2, 3)` (Python `int(_, 16)` accepts a
sign and whitespace), refuting both fallback conditions of the claim. -/
theorem parse_color_short_hex_cex :
    ("#FFFFF".length < 7 ∧ parse_color "#FFFFF" = (255, 255, 15) ∧
      parse_color "#FFFFF" ≠ (255, 255, 255)) ∧
    parse_color "#-1+2 3" = (-1, 2, 3) := by decide

/-- **C6 (amended).** For a string that starts with `#` and does not match
the `rgb`/`rgba` pattern, `parse_color` falls back to white whenever the
string is shorter than 6 characters (the slice `s[5:7]` is then empty and
`int` raises), and more generally whenever any of the three slices `s[1:3]`,
`s[3:5]`, `s[5:7]` fails to parse as a hexadecimal integer (i.e. is not
optional whitespace/sign around a nonempty run of hex digits). -/
theorem parse_color_hex_fallback (s : String)
    (hm : matchRgb? s.toList = none) (hhash : s.toList.head? = some '#')
    (hfail : s.length < 6 ∨
             pyIntHex? ((s.toList.drop 1).take 2) = none ∨
             pyIntHex? ((s.toList.drop 3).take 2) = none ∨
             pyIntHex? ((s.toList.drop 5).take 2) = none) :
    parse_color s = (255, 255, 255) := by
  have hfail' : pyIntHex? ((s.toList.drop 1).take 2) = none ∨
      pyIntHex? ((s.toList.drop 3).take 2) = none ∨
      pyIntHex? ((s.toList.drop 5).take 2) = none := by
    rcases hfail with hlen | h | h | h
    · right; right
      have hnil : s.toList.drop 5 = [] := by
        apply List.drop_eq_nil_of_le
        have : s.toList.length = s.length := rfl
        omega
      rw [hnil]
      rfl
    · exact Or.inl h
    · exact Or.inr (Or.inl h)
    · exact Or.inr (Or.inr h)
  unfold parse_color
  rw [hm, if_pos hhash]
  rcases hfail' with h | h | h <;> rw [h] <;>
    cases pyIntHex? ((s.toList.drop 1).take 2) <;>
    cases pyIntHex? ((s.toList.drop 3).take 2) <;>
    cases pyIntHex? ((s.toList.drop 5).take 2) <;> rfl

/-! ## Concrete instances for the theorems with hypotheses -/

/-- A concrete 4×2 test image. -/
def testImg : Img :=
  { width := 4, height := 2, pix := fun x y => ((x : Int), (y : Int), 7) }

/-- A trivial stand-in for the external resampling collaborator. -/
def idResample : Img → Nat × Nat → Img := fun i _ => i

/-- Witness for C1 at the spec's end-to-end example: a 1000×500 image with
the square preset becomes a 1000×1000 canvas. -/
theorem add_borders_dims_formula_witness :
    INSTAGRAM_RATIOS "1:1 (Square)" = some (1, 1) ∧
    newDims 1000 500 1 1 = (1000, 1000) := by
  refine ⟨by decide, ?_⟩
  have h := add_borders_dims_formula 1000 500 1 1 "1:1 (Square)"
    (by decide) (by norm_num) (by norm_num)
  rw [h.1]
  decide

/-- Witness for C2: the 4×2 test image under the square preset; the pixel at
offset `(1, 0)` of the pasted rectangle is the source pixel, and the canvas
corner `(0, 0)` is border-colored. -/
theorem add_borders_paste_centered_witness :
    add_borders idResample "/tmp" (some testImg) "c" "1:1 (Square)" false =
      (some (composite testImg (parse_color "c") 1 1),
       some ("/tmp" ++ "/processed_image.jpg")) ∧
    (composite testImg (parse_color "c") 1 1).pix
      (((newDims 4 2 1 1).1 - 4) / 2 + 1) (((newDims 4 2 1 1).2 - 2) / 2 + 0) =
      testImg.pix 1 0 ∧
    (composite testImg (parse_color "c") 1 1).pix 0 0 = parse_color "c" := by
  have hnd : newDims 4 2 1 1 = (4, 4) := by
    rw [newDims_eq 4 2 1 1 (by norm_num) (by norm_num) (by norm_num)]
    decide
  have h := add_borders_paste_centered testImg "c" "1:1 (Square)" "/tmp" 1 1
    idResample (by decide) (by decide) (by decide)
  refine ⟨h.1, h.2.2.2.1 1 0 (by decide) (by decide), ?_⟩
  refine h.2.2.2.2 0 0 ?_
  right; right; left
  show (0 : ℕ) < ((newDims 4 2 1 1).2 - 2) / 2
  rw [hnd]
  decide

/-- Witness for C3: with stored time 0, a request at 1/20 s is dropped and
leaves the timestamp, while a request at 1 s stores the new time and returns
the compositor's preview output. -/
theorem process_preview_debounce_witness :
    process_preview idResample "/tmp" 0 (1 / 20) (some testImg) "c" "1:1 (Square)" =
      (none, 0) ∧
    (process_preview idResample "/tmp" 0 1 (some testImg) "c" "1:1 (Square)").2 = 1 ∧
    (process_preview idResample "/tmp" 0 1 (some testImg) "c" "1:1 (Square)").1 =
      (add_borders idResample "/tmp" (some testImg) "c" "1:1 (Square)" true).1 := by
  have h1 := (process_preview_debounce idResample "/tmp" 0 (1 / 20) (some testImg)
    "c" "1:1 (Square)").1 (by norm_num [update_interval])
  have h2 := (process_preview_debounce idResample "/tmp" 0 1 (some testImg)
    "c" "1:1 (Square)").2 (by norm_num [update_interval])
  exact ⟨h1, h2.1, h2.2 testImg rfl⟩

/-- Witness for C4: a missing image yields `(None, None)`. -/
theorem add_borders_catches_failures_witness :
    add_borders idResample "/tmp" none "c" "1:1 (Square)" true = (none, none) :=
  add_borders_catches_failures idResample "/tmp" none "c" "1:1 (Square)" true
    (Or.inl rfl)

/-- Witness for the amended C5: an accepted missing-image call (stored time
0, now 2 s) returns `None` and stores 2. -/
theorem process_preview_missing_image_updates_time_witness :
    process_preview idResample "/tmp" 0 2 none "c" "1:1 (Square)" = (none, 2) :=
  process_preview_missing_image_updates_time idResample "/tmp" 0 2 "c"
    "1:1 (Square)" (by norm_num [update_interval])

/-- Witness for the amended C6: the one-character string `"#"` is shorter
than 6 characters and falls back to white. -/
theorem parse_color_hex_fallback_witness :
    "#".length < 6 ∧ parse_color "#" = (255, 255, 255) :=
  ⟨by decide, parse_color_hex_fallback "#" (by decide) (by decide)
    (Or.inl (by decide))⟩

/-- Witness for the amended C7: `"rgb(300,1,2)"` matches the functional
pattern and its components come back as the truncated, unclamped,
nonnegative values. -/
theorem parse_color_component_bounds_witness :
    parse_color "rgb(300,1,2)" = (300, 1, 2) ∧
    0 ≤ (parse_color "rgb(300,1,2)").1 := by
  have h := (parse_color_component_bounds "rgb(300,1,2)").2.2 300 1 2 (by decide)
  exact ⟨h.1, h.2.1⟩

/-- Witness for C8: a 500×500 image under the square preset keeps its
dimensions with zero offsets. -/
theorem add_borders_idempotent_dims_witness :
    newDims 500 500 1 1 = (500, 500) ∧
    paste_x 500 500 1 1 = 0 ∧ paste_y 500 500 1 1 = 0 :=
  add_borders_idempotent_dims 500 500 1 1 "1:1 (Square)" (by decide)
    (by norm_num) (by norm_num) (by norm_num)

/-- Witness for C10 at the 4×2 test dimensions under the square preset. -/
theorem paste_region_inside_canvas_witness :
    4 ≤ (newDims 4 2 1 1).1 ∧ 2 ≤ (newDims 4 2 1 1).2 ∧
    0 ≤ paste_x 4 2 1 1 ∧ 0 ≤ paste_y 4 2 1 1 ∧
    paste_x 4 2 1 1 + ((4 : ℕ) : Int) ≤ ((newDims 4 2 1 1).1 : Int) ∧
    paste_y 4 2 1 1 + ((2 : ℕ) : Int) ≤ ((newDims 4 2 1 1).2 : Int) :=
  paste_region_inside_canvas 4 2 1 1 "1:1 (Square)" (by decide)
    (by norm_num) (by norm_num)

end InstagramBorder
